import Mathlib

/-!
Shallow embedding of the ScummVM iMUSE internal engine core
(`engines/scumm/imuse/imuse_internal.h`) together with the parts of its
behaviour that the repository's specification describes.  The inline helper
functions (`clamp`, `transpose_clamp`) and the data layouts (`HookDatas`,
`ParameterFader`, `DeferredCommand`, `ImTrigger`, `CommandQueue`, the
fixed-size pools of `IMuseInternal`) are translated directly from the header.
Member functions whose bodies live in the implementation file, which is not
part of this source tree, are modelled from the specification; each such
definition says so in its doc comment.
-/

namespace Scumm

/-- Translation of the inline helper `clamp(int val, int min, int max)` from
the header: returns `min` when `val < min`, `max` when `val > max`, and
`val` otherwise. -/
def clamp (val lo hi : Int) : Int :=
  if val < lo then lo
  else if val > hi then hi
  else val

/-- Translation of the inline helper `transpose_clamp(int a, int b, int c)`
from the header: while keeping the pitch class of `a` (steps of 12), move it
up when it is below `b` and down when it is above `c`.  Whenever a division
is evaluated its dividend is positive (`b > a` gives `b - a + 11 >= 12`, and
`c < a` gives `a - c + 11 >= 12`), so Lean's Euclidean `/` on `Int` agrees
with the C truncating division at every evaluated point. -/
def transpose_clamp (a b c : Int) : Int :=
  let a1 := if b > a then a + (b - a + 11) / 12 * 12 else a
  if c < a1 then a1 - (a1 - c + 11) / 12 * 12 else a1

/-- Translation of `struct HookDatas` from the header: two jump hooks, a
transpose hook, and four 16-entry per-part hook tables. -/
structure HookDatas where
  jump : Fin 2 → Nat
  transpose : Nat
  part_onoff : Fin 16 → Nat
  part_volume : Fin 16 → Nat
  part_program : Fin 16 → Nat
  part_transpose : Fin 16 → Nat

/-- Translation of `HookDatas::reset()`: zeroes every hook field.  The
default constructor `HookDatas()` just calls `reset()`, so a freshly
constructed hook table is `HookDatas.reset h` for an arbitrary `h`. -/
def HookDatas.reset (_h : HookDatas) : HookDatas :=
  { jump := fun _ => 0
    transpose := 0
    part_onoff := fun _ => 0
    part_volume := fun _ => 0
    part_program := fun _ => 0
    part_transpose := fun _ => 0 }

/-- Claim C9: for integers `a`, `b`, `c` with `b ≤ c` and `c - b ≥ 11`,
`transpose_clamp a b c` is congruent to `a` modulo 12 and lies in `[b, c]`;
and when `a` is already in `[b, c]` it is returned unchanged. -/
theorem transpose_clamp_spec (a b c : Int) (hbc : b ≤ c) (h11 : 11 ≤ c - b) :
    (transpose_clamp a b c % 12 = a % 12 ∧
      b ≤ transpose_clamp a b c ∧ transpose_clamp a b c ≤ c) ∧
    (b ≤ a → a ≤ c → transpose_clamp a b c = a) := by
  simp only [transpose_clamp]
  split_ifs <;> omega

theorem transpose_clamp_spec_witness :
    transpose_clamp 20 0 11 % 12 = 20 % 12 ∧
      (0 : Int) ≤ transpose_clamp 20 0 11 ∧ transpose_clamp 20 0 11 ≤ 11 :=
  (transpose_clamp_spec 20 0 11 (by norm_num) (by norm_num)).1

/-- Claim C10: after `HookDatas.reset` (and hence after construction, which calls
`reset`) every hook field is zero: both jump hooks, the transpose hook, and
all 16 per-part on/off, volume, program and transpose hook entries. -/
theorem hook_reset_all_zero (h : HookDatas) (i : Fin 2) (j : Fin 16) :
    (h.reset).jump i = 0 ∧ (h.reset).transpose = 0 ∧
    (h.reset).part_onoff j = 0 ∧ (h.reset).part_volume j = 0 ∧
    (h.reset).part_program j = 0 ∧ (h.reset).part_transpose j = 0 :=
  ⟨rfl, rfl, rfl, rfl, rfl, rfl⟩

/-- Modelled from the spec: the body of `IMuseInternal::update_volumes`
(and of `setImuseMasterVolume`) is not in this source tree, only the header
declarations and the volume fields (`_master_volume`, `_music_volume`,
`_music_volume_eff`, `_channel_volume`, `_channel_volume_eff`, the per-player
`_vol_eff` and per-part `_vol_eff`, all 0-255) are.  The spec makes each
level scale the one above it, every factor mapping [0,255] x [0,255] into
[0,255]; `scale255` is that combination. -/
def scale255 (a b : Nat) : Nat :=
  a * b / 255

/-- Modelled from the spec: the global effective music volume is the min of
the explicit music-volume setting and the transient ducking reduction. -/
def music_volume_eff (music ducking : Nat) : Nat :=
  min music ducking

/-- Modelled from the spec: the effective volume of a channel bus scales the
raw channel volume by the master-scaled effective music volume. -/
def channel_volume_eff (master music ducking chan : Nat) : Nat :=
  scale255 chan (scale255 (music_volume_eff music ducking) master)

/-- Modelled from the spec: the effective volume of a player scales the
player's raw volume by its channel bus's effective volume. -/
def player_vol_eff (master music ducking chan playerVol : Nat) : Nat :=
  scale255 playerVol (channel_volume_eff master music ducking chan)

/-- Modelled from the spec: the effective volume of a part scales the
part's raw volume by its owning player's effective volume. -/
def part_vol_eff (master music ducking chan playerVol partVol : Nat) : Nat :=
  scale255 partVol (player_vol_eff master music ducking chan playerVol)

theorem scale255_le (a b : Nat) (ha : a ≤ 255) (hb : b ≤ 255) :
    scale255 a b ≤ 255 := by
  have h : a * b ≤ 255 * 255 := Nat.mul_le_mul ha hb
  calc a * b / 255 ≤ 255 * 255 / 255 := Nat.div_le_div_right h
    _ = 255 := by norm_num

theorem scale255_mono (a a' b b' : Nat) (ha : a ≤ a') (hb : b ≤ b') :
    scale255 a b ≤ scale255 a' b' :=
  Nat.div_le_div_right (Nat.mul_le_mul ha hb)

/-- Claim C1: with every volume input in [0,255], every entity's effective volume
lies in [0,255], and the part-level effective volume is monotonically
non-decreasing in each single input (master, music, channel, player, part)
with the others held fixed. -/
theorem effective_volume_monotone_and_bounded
    (master music ducking chan pl pt : Nat)
    (hm : master ≤ 255) (hmu : music ≤ 255) (hd : ducking ≤ 255)
    (hc : chan ≤ 255) (hp : pl ≤ 255) (hq : pt ≤ 255) :
    (music_volume_eff music ducking ≤ 255 ∧
     channel_volume_eff master music ducking chan ≤ 255 ∧
     player_vol_eff master music ducking chan pl ≤ 255 ∧
     part_vol_eff master music ducking chan pl pt ≤ 255) ∧
    (∀ x y, x ≤ y →
      part_vol_eff x music ducking chan pl pt ≤
        part_vol_eff y music ducking chan pl pt ∧
      part_vol_eff master x ducking chan pl pt ≤
        part_vol_eff master y ducking chan pl pt ∧
      part_vol_eff master music ducking x pl pt ≤
        part_vol_eff master music ducking y pl pt ∧
      part_vol_eff master music ducking chan x pt ≤
        part_vol_eff master music ducking chan y pt ∧
      part_vol_eff master music ducking chan pl x ≤
        part_vol_eff master music ducking chan pl y) := by
  have hmv : music_volume_eff music ducking ≤ 255 := le_trans (min_le_left _ _) hmu
  have hcv : channel_volume_eff master music ducking chan ≤ 255 :=
    scale255_le _ _ hc (scale255_le _ _ hmv hm)
  have hpv : player_vol_eff master music ducking chan pl ≤ 255 :=
    scale255_le _ _ hp hcv
  refine ⟨⟨hmv, hcv, hpv, scale255_le _ _ hq hpv⟩, fun x y hxy => ?_⟩
  have hmin : ∀ u v : Nat, u ≤ v →
      music_volume_eff u ducking ≤ music_volume_eff v ducking :=
    fun u v huv => min_le_min huv le_rfl
  refine ⟨?_, ?_, ?_, ?_, ?_⟩
  · exact scale255_mono _ _ _ _ le_rfl (scale255_mono _ _ _ _ le_rfl
      (scale255_mono _ _ _ _ le_rfl (scale255_mono _ _ _ _ le_rfl hxy)))
  · exact scale255_mono _ _ _ _ le_rfl (scale255_mono _ _ _ _ le_rfl
      (scale255_mono _ _ _ _ le_rfl (scale255_mono _ _ _ _ (hmin x y hxy) le_rfl)))
  · exact scale255_mono _ _ _ _ le_rfl (scale255_mono _ _ _ _ le_rfl
      (scale255_mono _ _ _ _ hxy le_rfl))
  · exact scale255_mono _ _ _ _ le_rfl (scale255_mono _ _ _ _ hxy le_rfl)
  · exact scale255_mono _ _ _ _ hxy le_rfl

theorem effective_volume_monotone_and_bounded_witness :
    part_vol_eff 255 255 255 255 255 255 ≤ 255 ∧
    part_vol_eff 255 255 255 100 255 255 ≤ part_vol_eff 255 255 255 101 255 255 :=
  ⟨(effective_volume_monotone_and_bounded 255 255 255 255 255 255
      (by norm_num) (by norm_num) (by norm_num) (by norm_num) (by norm_num)
      (by norm_num)).1.2.2.2,
   ((effective_volume_monotone_and_bounded 255 255 255 255 255 255
      (by norm_num) (by norm_num) (by norm_num) (by norm_num) (by norm_num)
      (by norm_num)).2 100 101 (by norm_num)).2.2.1⟩

/-- Logical state of a `Player` as declared in the header: activity flag,
external sound id, priority, volume, pan, transpose, detune, speed, and the
playback position (`_track_index`, beat, tick) used for save/restore. -/
structure PlayerVars where
  active : Bool
  id : Int
  priority : Nat
  volume : Int
  pan : Int
  transpose : Int
  detune : Int
  speed : Nat
  track_index : Nat
  beat_index : Nat
  tick_index : Nat
deriving DecidableEq

/-- Modelled from the spec: the body of `Player::setVolume` is not in this
source tree, only its declaration.  The spec's failure semantics say all
setters clamp to the valid domain range, volume to [0,255]; the clamping is
the header's `clamp` helper. -/
def PlayerVars.setVolume (p : PlayerVars) (vol : Int) : PlayerVars :=
  { p with volume := clamp vol 0 255 }

/-- Modelled from the spec: the body of `Player::setPan` is not in this
source tree, only its declaration.  The spec's failure semantics say all
setters clamp to the valid domain range, pan to [-64,63]; the clamping is
the header's `clamp` helper. -/
def PlayerVars.setPan (p : PlayerVars) (pan : Int) : PlayerVars :=
  { p with pan := clamp pan (-64) 63 }

/-- A concrete player value, used to instantiate theorems with hypotheses. -/
def initialPlayer : PlayerVars :=
  { active := false, id := 0, priority := 0, volume := 0, pan := 0,
    transpose := 0, detune := 0, speed := 128, track_index := 0,
    beat_index := 0, tick_index := 0 }

/-- Claim C8: each value setter always succeeds and clamps out-of-range input into
the parameter's valid domain (volume into [0,255], pan into [-64,63]); an
in-range input is stored unchanged. -/
theorem setters_clamp_to_domain (p : PlayerVars) (v w : Int) :
    (0 ≤ (p.setVolume v).volume ∧ (p.setVolume v).volume ≤ 255) ∧
    (-64 ≤ (p.setPan w).pan ∧ (p.setPan w).pan ≤ 63) ∧
    (0 ≤ v → v ≤ 255 → (p.setVolume v).volume = v) ∧
    (-64 ≤ w → w ≤ 63 → (p.setPan w).pan = w) := by
  simp only [PlayerVars.setVolume, PlayerVars.setPan, clamp]
  split_ifs <;> omega

theorem setters_clamp_to_domain_witness :
    (0 ≤ (initialPlayer.setVolume 999).volume ∧
      (initialPlayer.setVolume 999).volume ≤ 255) ∧
    (-64 ≤ (initialPlayer.setPan (-100)).pan ∧
      (initialPlayer.setPan (-100)).pan ≤ 63) ∧
    (initialPlayer.setVolume 100).volume = 100 ∧
    (initialPlayer.setPan 7).pan = 7 :=
  ⟨(setters_clamp_to_domain initialPlayer 999 (-100)).1,
   (setters_clamp_to_domain initialPlayer 999 (-100)).2.1,
   (setters_clamp_to_domain initialPlayer 100 7).2.2.1 (by norm_num) (by norm_num),
   (setters_clamp_to_domain initialPlayer 100 7).2.2.2 (by norm_num) (by norm_num)⟩

/-- Logical state of a `Part` as declared in the header: back-reference to
the owning player (`_player`), the optionally bound physical channel
(`_mc`, a handle that is not persistable), and the musical fields. -/
structure PartVars where
  player : Option (Fin 8)
  mc : Option Nat
  vol : Nat
  pan : Int
  transpose : Int
  detune : Int
  pri : Nat
  partOn : Bool
deriving DecidableEq

/-- Translation of `struct ImTrigger` from the header: a sound id, a marker
id, an expiry countdown, and an 8-entry command vector. -/
structure ImTrigger where
  sound : Int
  id : Nat
  expire : Nat
  command : Fin 8 → Int

/-- Translation of `struct DeferredCommand` from the header: a countdown
`time_left` plus the six command arguments; the zero-initialised state
(`time_left = 0`) marks a free slot. -/
structure DeferredCommand where
  time_left : Nat
  a : Int
  b : Int
  c : Int
  d : Int
  e : Int
  f : Int
deriving DecidableEq

/-- Translation of `struct CommandQueue` from the header: an 8-entry array
of queued command words. -/
structure CommandQueue where
  array : Fin 8 → Nat

/-- The fixed-capacity pools of `IMuseInternal` as declared in the header:
`Player _players[8]`, `Part _parts[32]`,
`Instrument _global_instruments[32]`, `CommandQueue _cmd_queue[64]`,
`DeferredCommand _deferredCommands[4]`, `ImTrigger _snm_triggers[16]`,
plus the volume state and the allocation-policy flags. -/
structure IMuseInternalState where
  master_volume : Nat
  music_volume : Nat
  music_volume_eff : Nat
  channel_volume : Fin 8 → Nat
  players : Fin 8 → PlayerVars
  parts : Fin 32 → PartVars
  global_instruments : Fin 32 → Nat
  cmd_queue : Fin 64 → CommandQueue
  deferredCommands : Fin 4 → DeferredCommand
  snm_triggers : Fin 16 → ImTrigger
  player_limit : Nat
  recycle_players : Bool

/-- Index set of the player pool of a state. -/
def playerSlots (_s : IMuseInternalState) : Finset (Fin 8) := Finset.univ

/-- Index set of the part pool of a state. -/
def partSlots (_s : IMuseInternalState) : Finset (Fin 32) := Finset.univ

/-- Index set of the global-instrument template pool of a state. -/
def instrumentSlots (_s : IMuseInternalState) : Finset (Fin 32) := Finset.univ

/-- Index set of the command-queue of a state. -/
def cmdQueueSlots (_s : IMuseInternalState) : Finset (Fin 64) := Finset.univ

/-- Index set of the deferred-command table of a state. -/
def deferredSlots (_s : IMuseInternalState) : Finset (Fin 4) := Finset.univ

/-- Index set of the trigger table of a state. -/
def triggerSlots (_s : IMuseInternalState) : Finset (Fin 16) := Finset.univ

/-- Slots of the player pool currently holding an active player. -/
def activePlayers (s : IMuseInternalState) : Finset (Fin 8) :=
  Finset.univ.filter fun i => (s.players i).active = true

/-- Slots of the part pool currently claimed by some player. -/
def usedParts (s : IMuseInternalState) : Finset (Fin 32) :=
  Finset.univ.filter fun j => (s.parts j).player ≠ none

/-- Claim C2: the engine state carries exactly 8 player slots, 32 part slots,
32 global instrument templates, a 64-entry command queue, a 4-entry
deferred-command table and a 16-entry trigger table; and in every state the
players and parts in existence fit in the pools, so no operation (each one
being a function into this state type) ever has more than 8 players or
32 parts at any time. -/
theorem engine_pools_fixed_capacity (s : IMuseInternalState) :
    (playerSlots s).card = 8 ∧ (partSlots s).card = 32 ∧
    (instrumentSlots s).card = 32 ∧ (cmdQueueSlots s).card = 64 ∧
    (deferredSlots s).card = 4 ∧ (triggerSlots s).card = 16 ∧
    (activePlayers s).card ≤ 8 ∧ (usedParts s).card ≤ 32 := by
  refine ⟨by simp [playerSlots], by simp [partSlots], by simp [instrumentSlots],
    by simp [cmdQueueSlots], by simp [deferredSlots], by simp [triggerSlots],
    ?_, ?_⟩
  · calc (activePlayers s).card ≤ (Finset.univ : Finset (Fin 8)).card :=
        Finset.card_filter_le _ _
      _ = 8 := by simp
  · calc (usedParts s).card ≤ (Finset.univ : Finset (Fin 32)).card :=
        Finset.card_filter_le _ _
      _ = 32 := by simp

/-- Slot of the active player with the lowest priority; ties are broken by
the lowest slot index (the fold keeps the earlier slot unless a strictly
lower priority appears later). -/
def lowestPrioritySlot (players : Fin 8 → PlayerVars) : Fin 8 :=
  (List.finRange 8).foldl
    (fun best i =>
      if (players i).priority < (players best).priority then i else best)
    ⟨0, by norm_num⟩

/-- Modelled from the spec: the body of `IMuseInternal::allocate_player` is
not in this source tree, only its declaration.  The spec says a start
allocates a free player slot when one exists; when the pool is exhausted
and `_recycle_players` is enabled, the lowest-priority active player is
evicted (its slot is reused); with recycling disabled the allocation
fails. -/
def allocate_player (players : Fin 8 → PlayerVars) (recycle : Bool)
    (_priority : Nat) : Option (Fin 8) :=
  match (List.finRange 8).find? (fun i => !(players i).active) with
  | some i => some i
  | none => if recycle then some (lowestPrioritySlot players) else none

/-- Modelled from the spec: the player-allocation step of
`IMuseInternal::startSound_internal` (body not in this source tree).  On a
successful allocation the chosen slot is overwritten with the new player's
state and the start succeeds; otherwise the start fails and the pool is
untouched. -/
def start_sound (players : Fin 8 → PlayerVars) (recycle : Bool)
    (newP : PlayerVars) : (Fin 8 → PlayerVars) × Bool :=
  match allocate_player players recycle newP.priority with
  | some i => (Function.update players i newP, true)
  | none => (players, false)

theorem lowestPrioritySlot_min (players : Fin 8 → PlayerVars) (i : Fin 8) :
    (players (lowestPrioritySlot players)).priority ≤ (players i).priority := by
  have key : ∀ (l : List (Fin 8)) (b : Fin 8),
      (players (l.foldl
        (fun best i =>
          if (players i).priority < (players best).priority then i else best)
        b)).priority ≤ (players b).priority ∧
      ∀ j ∈ l, (players (l.foldl
        (fun best i =>
          if (players i).priority < (players best).priority then i else best)
        b)).priority ≤ (players j).priority := by
    intro l
    induction l with
    | nil => exact fun b => ⟨le_rfl, by simp⟩
    | cons x xs ih =>
      intro b
      simp only [List.foldl_cons]
      constructor
      · split_ifs with h
        · exact le_trans (ih x).1 (le_of_lt h)
        · exact (ih b).1
      · intro j hj
        rcases List.mem_cons.mp hj with hj | hj
        · subst hj
          split_ifs with h
          · exact (ih j).1
          · exact le_trans (ih b).1 (le_of_not_lt h)
        · split_ifs with h
          · exact (ih x).2 j hj
          · exact (ih b).2 j hj
  exact (key (List.finRange 8) ⟨0, by norm_num⟩).2 i (List.mem_finRange i)

/-- Claim C3: when every player slot is active, a start with `_recycle_players`
disabled fails and leaves every player untouched; with it enabled, if the
lowest-priority active player's priority is strictly lower than the new
sound's, that player (an active one, of minimal priority over the pool) is
evicted: its slot is overwritten with the new player and the start
succeeds. -/
theorem start_sound_full_pool (players : Fin 8 → PlayerVars)
    (newP : PlayerVars) (hfull : ∀ i, (players i).active = true) :
    (start_sound players false newP = (players, false)) ∧
    ((players (lowestPrioritySlot players)).priority < newP.priority →
      (players (lowestPrioritySlot players)).active = true ∧
      (∀ i, (players (lowestPrioritySlot players)).priority ≤
        (players i).priority) ∧
      start_sound players true newP =
        (Function.update players (lowestPrioritySlot players) newP, true)) := by
  have hnone : (List.finRange 8).find? (fun i => !(players i).active) = none := by
    rw [List.find?_eq_none]
    intro i _
    simp [hfull i]
  constructor
  · simp [start_sound, allocate_player, hnone]
  · intro _
    exact ⟨hfull _, fun i => lowestPrioritySlot_min players i,
      by simp [start_sound, allocate_player, hnone]⟩

theorem start_sound_full_pool_witness :
    (start_sound (fun _ => { initialPlayer with active := true, priority := 3 })
        false { initialPlayer with priority := 10 } =
      (fun _ => { initialPlayer with active := true, priority := 3 }, false)) ∧
    (start_sound (fun _ => { initialPlayer with active := true, priority := 3 })
        true { initialPlayer with priority := 10 }).2 = true := by
  have h := start_sound_full_pool
    (fun _ => { initialPlayer with active := true, priority := 3 })
    { initialPlayer with priority := 10 } (fun _ => rfl)
  refine ⟨h.1, ?_⟩
  rw [(h.2 (by norm_num [lowestPrioritySlot])).2.2]

/-- Modelled from the spec: `struct ParameterFader` in the header stores
fixed-point interpolation machinery (`dir`, `incr`, `ifrac`, `irem`,
`ttime`, `cntdwn`, `state`) whose update code (`Player::onTimer` /
`transitionParameters`) is not in this source tree; the header's `init()`
marks a fader inactive by `param = 0`.  The model keeps the fader's
parameter selector (`param`, 0 meaning inactive), the current value of the
faded parameter, the target, and the remaining tick countdown. -/
structure ParameterFader where
  param : Nat
  cur : Int
  target : Int
  cntdwn : Nat
deriving DecidableEq

/-- Modelled from the spec: one timer tick of an installed fader.  An
inactive fader is untouched; on the last countdown tick the parameter is
clamped to exactly the target and the fader is deactivated; otherwise the
value moves toward the target by the interpolation step for the remaining
time and the countdown decreases. -/
def ParameterFader.tick (f : ParameterFader) : ParameterFader :=
  if f.param = 0 then f
  else if f.cntdwn ≤ 1 then { f with cur := f.target, param := 0, cntdwn := 0 }
  else
    { f with
      cur := f.cur + (f.target - f.cur) / (f.cntdwn : Int)
      cntdwn := f.cntdwn - 1 }

/-- Iterated fader ticks. -/
def ParameterFader.tickN (f : ParameterFader) : Nat → ParameterFader
  | 0 => f
  | n + 1 => f.tick.tickN n

/-- Modelled from the spec: the body of `Player::addParameterFader` is not
in this source tree, only its declaration.  It installs or replaces the
fader for `param`; `time = 0` applies the target immediately and leaves the
fader deactivated, `time > 0` starts a fade over `time` ticks. -/
def addParameterFader (f : ParameterFader) (param : Nat) (target : Int)
    (time : Nat) : ParameterFader :=
  if time = 0 then { param := 0, cur := target, target := target, cntdwn := 0 }
  else { param := param, cur := f.cur, target := target, cntdwn := time }

theorem tickN_add (f : ParameterFader) (m n : Nat) :
    f.tickN (m + n) = (f.tickN m).tickN n := by
  induction m generalizing f with
  | zero => rw [Nat.zero_add]; rfl
  | succ k ih =>
    have : k + 1 + n = (k + n) + 1 := by omega
    rw [this]
    exact ih f.tick

theorem tickN_inactive (f : ParameterFader) (hf : f.param = 0) (n : Nat) :
    f.tickN n = f := by
  induction n with
  | zero => rfl
  | succ k ih =>
    show f.tick.tickN k = f
    rw [show f.tick = f by simp [ParameterFader.tick, hf]]
    exact ih

theorem tickN_reaches (T : Nat) (f : ParameterFader) (hp : f.param ≠ 0)
    (hc : f.cntdwn = T) (hT : 0 < T) :
    (f.tickN T).cur = f.target ∧ (f.tickN T).param = 0 ∧
    (f.tickN T).target = f.target := by
  induction T generalizing f with
  | zero => omega
  | succ k ih =>
    by_cases hk : k = 0
    · subst hk
      show ((f.tick.tickN 0).cur = _ ∧ _)
      simp only [ParameterFader.tickN]
      rw [show f.tick = { f with cur := f.target, param := 0, cntdwn := 0 } by
        simp [ParameterFader.tick, hp, hc]]
      exact ⟨rfl, rfl, rfl⟩
    · have hstep : f.tickN (k + 1) = f.tick.tickN k := rfl
      have htick : f.tick =
          { f with
            cur := f.cur + (f.target - f.cur) / (f.cntdwn : Int)
            cntdwn := f.cntdwn - 1 } := by
        unfold ParameterFader.tick
        rw [if_neg hp, if_neg (by omega : ¬f.cntdwn ≤ 1)]
      rw [hstep, htick]
      exact ih _ hp (by simp [hc]) (by omega)

/-- Claim C4: a fader installed with `time = T > 0` on an actual parameter
(`param ≠ 0`) has the faded parameter exactly equal to the target after `T`
ticks and is inactive (hence unchanged) on every later tick; with
`time = 0` the target is applied on the same tick and the fader is
immediately deactivated. -/
theorem parameter_fader_reaches_target (f : ParameterFader) (param : Nat)
    (target : Int) (T : Nat) (hp : param ≠ 0) :
    (0 < T → ∀ k,
      ((addParameterFader f param target T).tickN (T + k)).cur = target ∧
      ((addParameterFader f param target T).tickN (T + k)).param = 0) ∧
    (T = 0 → (addParameterFader f param target T).cur = target ∧
      (addParameterFader f param target T).param = 0) := by
  constructor
  · intro hT k
    have hinst : addParameterFader f param target T =
        { param := param, cur := f.cur, target := target, cntdwn := T } := by
      simp [addParameterFader]
      omega
    have hreach := tickN_reaches T (addParameterFader f param target T)
      (by rw [hinst]; exact hp) (by rw [hinst]) hT
    rw [tickN_add, tickN_inactive _ hreach.2.1 k]
    refine ⟨?_, hreach.2.1⟩
    rw [hreach.1, hinst]
  · intro hT
    subst hT
    simp [addParameterFader]

theorem parameter_fader_reaches_target_witness :
    ((addParameterFader ⟨0, 10, 0, 0⟩ 1 200 5).tickN 5).cur = 200 ∧
    ((addParameterFader ⟨0, 10, 0, 0⟩ 1 200 5).tickN 7).param = 0 ∧
    (addParameterFader ⟨0, 10, 0, 0⟩ 1 200 0).cur = 200 :=
  ⟨((parameter_fader_reaches_target ⟨0, 10, 0, 0⟩ 1 200 5 (by norm_num)).1
      (by norm_num) 0).1,
   ((parameter_fader_reaches_target ⟨0, 10, 0, 0⟩ 1 200 5 (by norm_num)).1
      (by norm_num) 2).2,
   ((parameter_fader_reaches_target ⟨0, 10, 0, 0⟩ 1 200 0 (by norm_num)).2
      rfl).1⟩

/-- Events a trigger can observe: a timer tick of the engine's tick handler
or a marker (with its sound id and marker id) observed by the owning
player's marker-handling path. -/
inductive ImEvent where
  | tick : ImEvent
  | marker : Int → Nat → ImEvent
deriving DecidableEq

/-- Modelled from the spec: the trigger-processing bodies
(`IMuseInternal::ImSetTrigger`, `handle_marker`, the expiry countdown in the
tick handler) are not in this source tree, only their declarations.  One
step of a single trigger slot: a matching marker fires and removes it; a
tick decrements a non-zero expiry countdown and fires and removes the
trigger when it runs out (a zero expiry means no countdown was set). -/
def triggerStep (st : Option ImTrigger) (ev : ImEvent) :
    Option ImTrigger × Bool :=
  match st, ev with
  | none, _ => (none, false)
  | some t, ImEvent.marker s i =>
      if t.sound = s ∧ t.id = i then (none, true) else (some t, false)
  | some t, ImEvent.tick =>
      if t.expire = 0 then (some t, false)
      else if t.expire = 1 then (none, true)
      else (some { t with expire := t.expire - 1 }, false)

/-- Folding a trigger slot over a sequence of events, counting fires. -/
def triggerRun : Option ImTrigger → List ImEvent → Option ImTrigger × Nat
  | st, [] => (st, 0)
  | st, ev :: evs =>
      ((triggerRun (triggerStep st ev).1 evs).1,
        (if (triggerStep st ev).2 then 1 else 0) +
          (triggerRun (triggerStep st ev).1 evs).2)

/-- Number of tick events in a sequence. -/
def countTicks : List ImEvent → Nat
  | [] => 0
  | ImEvent.tick :: evs => countTicks evs + 1
  | ImEvent.marker _ _ :: evs => countTicks evs

theorem triggerRun_none (es : List ImEvent) : triggerRun none es = (none, 0) := by
  induction es with
  | nil => rfl
  | cons e es ih =>
    cases e <;> simp [triggerRun, triggerStep, ih]

/-- Claim C5: a trigger installed with expiry `E > 0` fires at most once over any
sequence of tick and marker events; it fires (exactly once) precisely when
the sequence contains a matching marker for its (sound, id) pair or at
least `E` ticks, and it has been removed from its slot precisely under the
same condition, so it can never fire a second time. -/
theorem trigger_fires_at_most_once (sound : Int) (id : Nat) (E : Nat)
    (cmd : Fin 8 → Int) (es : List ImEvent) (hE : 0 < E) :
    (triggerRun (some ⟨sound, id, E, cmd⟩) es).2 ≤ 1 ∧
    ((triggerRun (some ⟨sound, id, E, cmd⟩) es).2 = 1 ↔
      E ≤ countTicks es ∨ ImEvent.marker sound id ∈ es) ∧
    ((triggerRun (some ⟨sound, id, E, cmd⟩) es).1 = none ↔
      E ≤ countTicks es ∨ ImEvent.marker sound id ∈ es) := by
  induction es generalizing E with
  | nil =>
    refine ⟨by simp [triggerRun], ?_, ?_⟩ <;> simp [triggerRun, countTicks] <;> omega
  | cons ev evs ih =>
    cases ev with
    | tick =>
      by_cases h1 : E = 1
      · subst h1
        have hstep : triggerStep (some ⟨sound, id, 1, cmd⟩) ImEvent.tick =
            (none, true) := rfl
        simp [triggerRun, hstep, triggerRun_none, countTicks]
      · have hstep : triggerStep (some ⟨sound, id, E, cmd⟩) ImEvent.tick =
            (some ⟨sound, id, E - 1, cmd⟩, false) := by
          have h0 : ¬(E = 0) := by omega
          simp only [triggerStep]
          rw [if_neg h0, if_neg h1]
        obtain ⟨ha, hb, hc⟩ := ih (E - 1) (by omega)
        refine ⟨?_, ?_, ?_⟩
        · simpa [triggerRun, hstep] using ha
        · rw [show (triggerRun (some ⟨sound, id, E, cmd⟩)
            (ImEvent.tick :: evs)).2 =
              (triggerRun (some ⟨sound, id, E - 1, cmd⟩) evs).2 by
            simp [triggerRun, hstep]]
          rw [hb]
          simp only [countTicks, List.mem_cons]
          constructor
          · rintro (h | h)
            · exact Or.inl (by omega)
            · exact Or.inr (Or.inr h)
          · rintro (h | h | h)
            · exact Or.inl (by omega)
            · exact absurd h (by simp)
            · exact Or.inr h
        · rw [show (triggerRun (some ⟨sound, id, E, cmd⟩)
            (ImEvent.tick :: evs)).1 =
              (triggerRun (some ⟨sound, id, E - 1, cmd⟩) evs).1 by
            simp [triggerRun, hstep]]
          rw [hc]
          simp only [countTicks, List.mem_cons]
          constructor
          · rintro (h | h)
            · exact Or.inl (by omega)
            · exact Or.inr (Or.inr h)
          · rintro (h | h | h)
            · exact Or.inl (by omega)
            · exact absurd h (by simp)
            · exact Or.inr h
    | marker s i =>
      by_cases hm : sound = s ∧ id = i
      · obtain ⟨hs, hi⟩ := hm
        subst hs
        subst hi
        have hstep : triggerStep (some ⟨sound, id, E, cmd⟩)
            (ImEvent.marker sound id) = (none, true) := by
          simp [triggerStep]
        simp [triggerRun, hstep, triggerRun_none, countTicks]
      · have hstep : triggerStep (some ⟨sound, id, E, cmd⟩)
            (ImEvent.marker s i) = (some ⟨sound, id, E, cmd⟩, false) := by
          simp only [triggerStep]
          rw [if_neg hm]
        obtain ⟨ha, hb, hc⟩ := ih E hE
        have hhd : ¬(ImEvent.marker sound id = ImEvent.marker s i) := by
          simp only [ImEvent.marker.injEq]
          exact hm
        refine ⟨?_, ?_, ?_⟩
        · simpa [triggerRun, hstep] using ha
        · rw [show (triggerRun (some ⟨sound, id, E, cmd⟩)
            (ImEvent.marker s i :: evs)).2 =
              (triggerRun (some ⟨sound, id, E, cmd⟩) evs).2 by
            simp [triggerRun, hstep]]
          rw [hb]
          simp [countTicks, List.mem_cons, hhd]
        · rw [show (triggerRun (some ⟨sound, id, E, cmd⟩)
            (ImEvent.marker s i :: evs)).1 =
              (triggerRun (some ⟨sound, id, E, cmd⟩) evs).1 by
            simp [triggerRun, hstep]]
          rw [hc]
          simp [countTicks, List.mem_cons, hhd]

theorem trigger_fires_at_most_once_witness :
    (triggerRun (some ⟨7, 3, 2, fun _ => 0⟩)
      [ImEvent.marker 7 3, ImEvent.tick, ImEvent.marker 7 3,
        ImEvent.tick, ImEvent.tick]).2 ≤ 1 ∧
    ((triggerRun (some ⟨7, 3, 2, fun _ => 0⟩)
      [ImEvent.marker 9 9]).2 = 1 ↔ (2 ≤ countTicks [ImEvent.marker 9 9] ∨
        ImEvent.marker 7 3 ∈ [ImEvent.marker 9 9])) :=
  ⟨(trigger_fires_at_most_once 7 3 2 (fun _ => 0)
      [ImEvent.marker 7 3, ImEvent.tick, ImEvent.marker 7 3,
        ImEvent.tick, ImEvent.tick] (by norm_num)).1,
   (trigger_fires_at_most_once 7 3 2 (fun _ => 0)
      [ImEvent.marker 9 9] (by norm_num)).2.1⟩

/-- Modelled from the spec: the body of
`IMuseInternal::handleDeferredCommands` is not in this source tree, only
its declaration.  One timer tick of a single deferred-command slot: a free
slot (`time_left = 0`, the zero-initialised state) is untouched; an
occupied slot has its countdown decremented, and when it reaches zero the
command executes (the returned flag) and the slot becomes free. -/
def DeferredCommand.tickSlot (d : DeferredCommand) : DeferredCommand × Bool :=
  if d.time_left = 0 then (d, false)
  else if d.time_left = 1 then ({ d with time_left := 0 }, true)
  else ({ d with time_left := d.time_left - 1 }, false)

/-- Iterated deferred-command ticks of one slot, counting executions. -/
def deferredRun (d : DeferredCommand) : Nat → DeferredCommand × Nat
  | 0 => (d, 0)
  | n + 1 =>
      ((deferredRun d.tickSlot.1 n).1,
        (if d.tickSlot.2 then 1 else 0) + (deferredRun d.tickSlot.1 n).2)

/-- Modelled from the spec: the body of
`IMuseInternal::addDeferredCommand` is not in this source tree, only its
declaration.  It stores the command in the first free slot of the 4-entry
table; when every slot is occupied it reports a capacity error and evicts
nothing. -/
def addDeferredCommand (tbl : Fin 4 → DeferredCommand) (time : Nat)
    (a b c d e f : Int) : (Fin 4 → DeferredCommand) × Bool :=
  match (List.finRange 4).find? (fun i => (tbl i).time_left == 0) with
  | some i => (Function.update tbl i ⟨time, a, b, c, d, e, f⟩, true)
  | none => (tbl, false)

theorem deferredRun_free (d : DeferredCommand) (h : d.time_left = 0) :
    ∀ n, deferredRun d n = (d, 0) := by
  intro n
  induction n with
  | zero => rfl
  | succ k ih =>
    have hstep : d.tickSlot = (d, false) := by
      simp only [DeferredCommand.tickSlot]
      rw [if_pos h]
    simp [deferredRun, hstep, ih]

/-- Claim C6: an occupied deferred-command slot with countdown `t > 0` has its
countdown decremented once per tick, executes its command exactly once (on
the tick where the countdown reaches zero, so exactly when `t ≤ n` ticks
have happened), after which its slot is free (`time_left = 0`) and it
never executes again; and adding a deferred command when all 4 slots are
occupied returns a capacity error and leaves every table entry
unchanged. -/
theorem deferred_command_exec_once (tbl : Fin 4 → DeferredCommand)
    (time : Nat) (ar br cr dr er fr : Int) (n : Nat) (dc : DeferredCommand) :
    ((∀ i, (tbl i).time_left ≠ 0) →
      addDeferredCommand tbl time ar br cr dr er fr = (tbl, false)) ∧
    (0 < dc.time_left →
      deferredRun dc n =
        ({ dc with time_left := dc.time_left - n },
          if dc.time_left ≤ n then 1 else 0)) := by
  constructor
  · intro h
    have hnone : (List.finRange 4).find? (fun i => (tbl i).time_left == 0) =
        none := by
      rw [List.find?_eq_none]
      intro i _
      simpa using h i
    simp [addDeferredCommand, hnone]
  · intro hdc
    induction n generalizing dc with
    | zero =>
      simp only [deferredRun, Nat.sub_zero]
      rw [if_neg (by omega : ¬dc.time_left ≤ 0)]
    | succ k ih =>
      by_cases h1 : dc.time_left = 1
      · have hstep : dc.tickSlot = ({ dc with time_left := 0 }, true) := by
          simp only [DeferredCommand.tickSlot]
          rw [if_neg (by omega : ¬dc.time_left = 0), if_pos h1]
        simp only [deferredRun, hstep]
        rw [deferredRun_free _ rfl k]
        rw [if_pos (by omega : dc.time_left ≤ k + 1)]
        simp [show dc.time_left - (k + 1) = 0 by omega]
      · have hstep : dc.tickSlot =
            ({ dc with time_left := dc.time_left - 1 }, false) := by
          simp only [DeferredCommand.tickSlot]
          rw [if_neg (by omega : ¬dc.time_left = 0), if_neg h1]
        have := ih { dc with time_left := dc.time_left - 1 } (by simp; omega)
        simp only [deferredRun, hstep, this]
        have harith : dc.time_left - 1 - k = dc.time_left - (k + 1) := by omega
        have hcond : (dc.time_left - 1 ≤ k) = (dc.time_left ≤ k + 1) := by
          simp only [eq_iff_iff]
          omega
        simp [harith, hcond]

theorem deferred_command_exec_once_witness :
    addDeferredCommand (fun _ => ⟨5, 0, 0, 0, 0, 0, 0⟩) 3 1 2 3 4 5 6 =
      ((fun _ => ⟨5, 0, 0, 0, 0, 0, 0⟩), false) ∧
    deferredRun ⟨3, 1, 2, 3, 4, 5, 6⟩ 5 = (⟨0, 1, 2, 3, 4, 5, 6⟩, 1) := by
  constructor
  · exact (deferred_command_exec_once (fun _ => ⟨5, 0, 0, 0, 0, 0, 0⟩)
      3 1 2 3 4 5 6 5 ⟨3, 1, 2, 3, 4, 5, 6⟩).1 (fun i => by decide)
  · have h := (deferred_command_exec_once (fun _ => ⟨5, 0, 0, 0, 0, 0, 0⟩)
      3 1 2 3 4 5 6 5 ⟨3, 1, 2, 3, 4, 5, 6⟩).2 (by decide)
    simpa using h

/-- A part reset to the inactive pool state, used when a restored part's
cross-references cannot be resolved. -/
def resetPart : PartVars :=
  { player := none, mc := none, vol := 0, pan := 0, transpose := 0,
    detune := 0, pri := 0, partOn := false }

/-- Modelled from the spec: the body of `IMuseInternal::saveLoadIMuse` is
not in this source tree, only its declaration.  Saving serializes every
logical Player/Part field and the volume/queue/trigger/deferred state, but
not the physical channel handle (`_mc`), which is not persistable; the
saved blob is therefore the state with every part's channel binding
stripped. -/
def save_state (s : IMuseInternalState) : IMuseInternalState :=
  { s with parts := fun j => { s.parts j with mc := none } }

/-- Modelled from the spec: the post-load fix-up pass
(`fix_parts_after_load` / `fix_players_after_load`, `Part::fix_after_load`,
bodies not in this source tree).  Every part that references a live
(active) player re-acquires a physical channel from the output backend
(modelled as a fresh handle, distinct per part slot); a part whose player
reference is unresolvable is dropped back to the inactive state; an
unowned part stays unbound. -/
def fix_after_load (s : IMuseInternalState) : IMuseInternalState :=
  { s with parts := fun j =>
      match (s.parts j).player with
      | some i =>
          if (s.players i).active then { s.parts j with mc := some j.val }
          else resetPart
      | none => { s.parts j with mc := none } }

/-- Restoring a saved blob runs the post-load fix-up pass on it. -/
def restore_state (blob : IMuseInternalState) : IMuseInternalState :=
  fix_after_load blob

/-- Save followed by restore. -/
def roundTrip (s : IMuseInternalState) : IMuseInternalState :=
  restore_state (save_state s)

/-- Valid channel bindings: every bound part references a live player, no
two parts share a physical channel, and no part references an inactive
player (no dangling references in either direction). -/
def validBindings (s : IMuseInternalState) : Prop :=
  (∀ j, ((s.parts j).mc).isSome = true →
    ∃ i, (s.parts j).player = some i ∧ (s.players i).active = true) ∧
  (∀ j k, (s.parts j).mc = (s.parts k).mc →
    ((s.parts j).mc).isSome = true → j = k) ∧
  (∀ j i, (s.parts j).player = some i → (s.players i).active = true)

theorem roundTrip_parts (s : IMuseInternalState) (j : Fin 32) :
    (roundTrip s).parts j =
      match (s.parts j).player with
      | some i =>
          if (s.players i).active then { s.parts j with mc := some j.val }
          else resetPart
      | none => { s.parts j with mc := none } := rfl

theorem roundTrip_parts_some_active (s : IMuseInternalState) (j : Fin 32)
    (i : Fin 8) (hp : (s.parts j).player = some i)
    (ha : (s.players i).active = true) :
    (roundTrip s).parts j = { s.parts j with mc := some j.val } := by
  rw [roundTrip_parts s j, hp]
  simp [ha]

theorem roundTrip_parts_some_inactive (s : IMuseInternalState) (j : Fin 32)
    (i : Fin 8) (hp : (s.parts j).player = some i)
    (ha : ¬(s.players i).active = true) :
    (roundTrip s).parts j = resetPart := by
  rw [roundTrip_parts s j, hp]
  simp [ha]

theorem roundTrip_parts_unowned (s : IMuseInternalState) (j : Fin 32)
    (hp : (s.parts j).player = none) :
    (roundTrip s).parts j = { s.parts j with mc := none } := by
  rw [roundTrip_parts s j, hp]

/-- Claim C7: restoring a saved engine state (with the post-load fix-up pass)
reproduces the logical field values of every player (all fields, including
volume, pan, transpose and the playback position) and of every part owned
by an active player (volume, pan, transpose, detune, owner), preserves the
volume state, and leaves every physical channel binding valid: no dangling
part-to-player reference and no channel claimed by two parts. -/
theorem save_restore_roundtrip (s : IMuseInternalState) :
    (∀ i, (roundTrip s).players i = s.players i) ∧
    (roundTrip s).master_volume = s.master_volume ∧
    (roundTrip s).music_volume = s.music_volume ∧
    (∀ j i, (s.parts j).player = some i → (s.players i).active = true →
      ((roundTrip s).parts j).vol = (s.parts j).vol ∧
      ((roundTrip s).parts j).pan = (s.parts j).pan ∧
      ((roundTrip s).parts j).transpose = (s.parts j).transpose ∧
      ((roundTrip s).parts j).detune = (s.parts j).detune ∧
      ((roundTrip s).parts j).player = (s.parts j).player) ∧
    validBindings (roundTrip s) := by
  refine ⟨fun i => rfl, rfl, rfl, ?_, ?_, ?_, ?_⟩
  · intro j i hj hact
    rw [roundTrip_parts_some_active s j i hj hact]
    exact ⟨rfl, rfl, rfl, rfl, rfl⟩
  · intro j hj
    cases hp : (s.parts j).player with
    | none =>
      rw [roundTrip_parts_unowned s j hp] at hj
      simp at hj
    | some i =>
      by_cases hact : (s.players i).active = true
      · refine ⟨i, ?_, hact⟩
        rw [roundTrip_parts_some_active s j i hp hact]
        exact hp
      · rw [roundTrip_parts_some_inactive s j i hp hact] at hj
        simp [resetPart] at hj
  · intro j k hjk hj
    cases hp : (s.parts j).player with
    | none =>
      rw [roundTrip_parts_unowned s j hp] at hj
      simp at hj
    | some i =>
      by_cases hact : (s.players i).active = true
      · rw [roundTrip_parts_some_active s j i hp hact] at hjk
        cases hq : (s.parts k).player with
        | none =>
          rw [roundTrip_parts_unowned s k hq] at hjk
          simp at hjk
        | some i' =>
          by_cases hact' : (s.players i').active = true
          · rw [roundTrip_parts_some_active s k i' hq hact'] at hjk
            simp only [Option.some.injEq] at hjk
            exact Fin.ext hjk
          · rw [roundTrip_parts_some_inactive s k i' hq hact'] at hjk
            simp [resetPart] at hjk
      · rw [roundTrip_parts_some_inactive s j i hp hact] at hj
        simp [resetPart] at hj
  · intro j i hj
    cases hp : (s.parts j).player with
    | none =>
      rw [roundTrip_parts_unowned s j hp] at hj
      simp at hj
      rw [hp] at hj
      exact Option.noConfusion hj
    | some i' =>
      by_cases hact : (s.players i').active = true
      · rw [roundTrip_parts_some_active s j i' hp hact] at hj
        simp at hj
        rw [hp] at hj
        obtain rfl := Option.some.inj hj
        exact hact
      · rw [roundTrip_parts_some_inactive s j i' hp hact] at hj
        simp [resetPart] at hj

/-- A concrete engine state with one active player owning one bound part,
used to instantiate theorems with hypotheses. -/
def exampleState : IMuseInternalState :=
  { master_volume := 255
    music_volume := 200
    music_volume_eff := 200
    channel_volume := fun _ => 255
    players := fun i =>
      if i = 0 then
        { initialPlayer with
          active := true
          volume := 80
          pan := 5
          transpose := 2 }
      else initialPlayer
    parts := fun j =>
      if j = 0 then
        { player := some 0
          mc := some 99
          vol := 60
          pan := -3
          transpose := 1
          detune := 0
          pri := 4
          partOn := true }
      else resetPart
    global_instruments := fun _ => 0
    cmd_queue := fun _ => ⟨fun _ => 0⟩
    deferredCommands := fun _ => ⟨0, 0, 0, 0, 0, 0, 0⟩
    snm_triggers := fun _ => ⟨0, 0, 0, fun _ => 0⟩
    player_limit := 8
    recycle_players := true }

theorem save_restore_roundtrip_witness :
    ((roundTrip exampleState).parts 0).vol = (exampleState.parts 0).vol ∧
    ((roundTrip exampleState).parts 0).pan = (exampleState.parts 0).pan ∧
    validBindings (roundTrip exampleState) :=
  ⟨((save_restore_roundtrip exampleState).2.2.2.1 0 0 (by decide) (by decide)).1,
   ((save_restore_roundtrip exampleState).2.2.2.1 0 0 (by decide) (by decide)).2.1,
   (save_restore_roundtrip exampleState).2.2.2.2⟩

end Scumm
